import Mathlib

/-!
Shallow embedding of the repository `andthum/transfer_Li`
(file `python/transfer_Li.py`) and proofs about it.

The script consists of two pure geometry functions, `check_hex_lattice`
and `hex_verts2faces`, plus a top-level insertion-site selection
performed in the `__main__` block (lines 305-362 of the source).  Both
parts are embedded here over exact rational numbers:

* positions are triples of rationals (`Pos`), the simulation box is
  embedded in its orthorhombic form (`Box`), for which the MDAnalysis
  helper `apply_PBC` is the coordinate-wise reduction into `[0, L)`;
* `np.sqrt(3)`, an irrational constant that the exact-rational embedding
  cannot produce, is passed to the lattice functions as an explicit
  parameter `sqrt3` (the script computes it once with `np.sqrt`);
* the insertion-site selection of the `__main__` block is embedded as
  `selectInsertion`, a function of the candidate positions and of the
  candidate-to-neighbor distance matrix (the matrix itself is produced
  in the script by the external collaborator
  `MDAnalysis.lib.distances.distance_array`);
* every `raise ValueError` site of the script is a distinct error
  constructor, and places where numpy itself would raise (reductions
  over empty arrays, indexing an empty array) are also explicit error
  constructors.
-/

/-! ### Basic data: positions, boxes, rational helpers -/

/-- A 3D position `(x, y, z)` with exact rational coordinates. -/
structure Pos where
  x : ℚ
  y : ℚ
  z : ℚ
deriving DecidableEq, Inhabited

/-- The unit-cell dimensions `[lx, ly, lz]` of an orthorhombic box
(`alpha = beta = gamma = 90`, the case in which the script is run). -/
structure Box where
  lx : ℚ
  ly : ℚ
  lz : ℚ
deriving DecidableEq

/-- Python float modulo for the moduli used by the script:
`a % m = a - floor(a / m) * m`. -/
def fmod (a m : ℚ) : ℚ := a - ⌊a / m⌋ * m

/-- `MDAnalysis.lib.distances.apply_PBC` for an orthorhombic box:
wrap every coordinate into the primary cell `[0, L)`. -/
def wrapPos (box : Box) (p : Pos) : Pos :=
  ⟨fmod p.x box.lx, fmod p.y box.ly, fmod p.z box.lz⟩

/-- Round to the nearest integer, ties to the even integer
(the rounding used by `np.round`). -/
def roundHalfEven (q : ℚ) : ℤ :=
  let n := ⌊q⌋
  let f := q - n
  if f < 1/2 then n
  else if 1/2 < f then n + 1
  else if n % 2 = 0 then n else n + 1

/-- `10 ^ p` for an integer exponent `p`. -/
def pow10 (p : ℤ) : ℚ :=
  if 0 ≤ p then ((10 : ℚ) ^ p.toNat) else ((10 : ℚ) ^ (-p).toNat)⁻¹

/-- `np.round(q, p)`: round to `p` decimal places. -/
def roundTo (p : ℤ) (q : ℚ) : ℚ := roundHalfEven (q * pow10 p) / pow10 p

/-- Coordinate-wise `np.round(-, p)` on a position. -/
def roundPos (p : ℤ) (v : Pos) : Pos := ⟨roundTo p v.x, roundTo p v.y, roundTo p v.z⟩

/-- `int(np.ceil(-np.log10(tol)))`, the decimal precision derived from the
tolerance in `hex_verts2faces`; `ceil (-log10 tol) = -floor (log10 tol)`. -/
def precision (tol : ℚ) : ℤ := -Int.log 10 tol

/-! ### The insertion-site selection (script lines 305-362) -/

/-- The distinct failure modes of the insertion-site selection.  The
first three are the three `raise ValueError` sites of the `__main__`
block; `numpyEmptyMin` stands for the `ValueError` numpy itself raises
when `np.min` is applied to an empty selection (line 347 or line 358
with an empty array). -/
inductive SelErr where
  | noContacts
  | allDisqualified
  | emptySuitable
  | numpyEmptyMin
deriving DecidableEq

/-- The distances of one candidate row that are within-`r_max` contacts:
`dists[i][cm[i]]` where `cm = dists <= r_cut`. -/
def contactDists (row : List ℚ) (rmax : ℚ) : List ℚ :=
  row.filter (fun d => d ≤ rmax)

/-- `n_neighbors` of one candidate row: `np.sum(cm, axis=1)` for that row. -/
def nNeighbors (row : List ℚ) (rmax : ℚ) : ℕ := (contactDists row rmax).length

/-- `too_close` of one candidate row: `np.any(dists <= sigma_Li, axis=1)`. -/
def tooCloseRow (row : List ℚ) (rmin : ℚ) : Bool := row.any (fun d => d ≤ rmin)

/-- `np.min` on a list; `none` on the empty list, where numpy raises. -/
def npMin {α : Type} [LinearOrder α] : List α → Option α
  | [] => none
  | a :: l =>
    match npMin l with
    | none => some a
    | some m => some (min a m)

/-- `np.min(n_neighbors[~too_close])` (line 347), the minimum neighbor
count among candidates without too-close neighbors. -/
def minNonDisqCount (dists : List (List ℚ)) (rmin rmax : ℚ) : Option ℕ :=
  npMin ((dists.filter (fun r => !(tooCloseRow r rmin))).map
    (fun r => nNeighbors r rmax))

/-- `np.flatnonzero(n_neighbors == np.min(n_neighbors[~too_close]))`
(line 347): ascending indices of the candidates with the minimum
neighbor count. -/
def minCountIxs (dists : List (List ℚ)) (rmax : ℚ) (minN : ℕ) : List ℕ :=
  (List.range dists.length).filter
    (fun i => nNeighbors (dists.getD i []) rmax == minN)

/-- `np.flatnonzero(too_close)` (line 349): ascending indices of the
candidates with a too-close neighbor. -/
def tooCloseIxs (dists : List (List ℚ)) (rmin : ℚ) : List ℕ :=
  (List.range dists.length).filter
    (fun i => tooCloseRow (dists.getD i []) rmin)

/-- `np.setdiff1d(a, b, assume_unique=True)` on ascending index lists:
the members of `a` that are not in `b`, in their original order. -/
def setdiff (a b : List ℕ) : List ℕ := a.filter (fun i => !(b.contains i))

/-- `hex_ixs` (lines 347-351) for an already-computed minimum neighbor
count: the suitable candidate indices. -/
def suitableIxsGiven (dists : List (List ℚ)) (rmin rmax : ℚ) (minN : ℕ) :
    List ℕ :=
  setdiff (minCountIxs dists rmax minN) (tooCloseIxs dists rmin)

/-- The suitable candidate indices as constructed in lines 344-351
(empty when `np.min` would be applied to an empty selection). -/
def suitableIxs (dists : List (List ℚ)) (rmin rmax : ℚ) : List ℕ :=
  match minNonDisqCount dists rmin rmax with
  | none => []
  | some minN => suitableIxsGiven dists rmin rmax minN

/-- `np.argmax`: index of the first occurrence of the maximum. -/
def argmaxIdx : List ℚ → ℕ
  | [] => 0
  | a :: l =>
    let j := argmaxIdx l
    if a < l.getD j a then j + 1 else 0

/-- `min_dists` (lines 354-358): for each suitable candidate the distance
of its nearest neighbor, `np.min(dists[hex_ix][cm[hex_ix]])`; an error
when numpy would raise on an empty selection. -/
def collectMinDists (dists : List (List ℚ)) (rmax : ℚ) :
    List ℕ → Except SelErr (List ℚ)
  | [] => .ok []
  | i :: is =>
    match npMin (contactDists (dists.getD i []) rmax) with
    | none => .error .numpyEmptyMin
    | some d =>
      match collectMinDists dists rmax is with
      | .error e => .error e
      | .ok ds => .ok (d :: ds)

/-- The data the selection produces for the report and the transfer:
`hex_ixs`, `min_dists`, `hex_ix_best` and `insertion_point`. -/
structure SelectionResult where
  hexIxs : List ℕ
  minDists : List ℚ
  hexIxBest : ℕ
  insertionPoint : Pos
deriving DecidableEq

/-- The insertion-site selection of the `__main__` block (lines 325-362),
as a function of the candidate positions `hexCenters` and of the
candidate-to-neighbor distance matrix `dists` (one row per candidate)
produced externally by `MDAnalysis.lib.distances.distance_array`:

* raise if `cm = dists <= r_cut` has no `True` entry (lines 326-330);
* raise if every candidate has a too-close neighbor (lines 338-343);
* compute the candidates with the fewest neighbors among those without
  too-close neighbors, remove the too-close ones (lines 344-351);
* raise if no suitable candidate remains (lines 352-353);
* compute each suitable candidate's nearest-neighbor distance and pick
  the first candidate attaining the largest one (lines 354-362). -/
def selectInsertion (hexCenters : List Pos) (dists : List (List ℚ))
    (rmin rmax : ℚ) : Except SelErr SelectionResult :=
  if !(dists.any (fun r => r.any (fun d => d ≤ rmax))) then .error .noContacts
  else if dists.all (fun r => tooCloseRow r rmin) then .error .allDisqualified
  else
    match minNonDisqCount dists rmin rmax with
    | none => .error .numpyEmptyMin
    | some minN =>
      let hexIxs := suitableIxsGiven dists rmin rmax minN
      if hexIxs.isEmpty then .error .emptySuitable
      else
        match collectMinDists dists rmax hexIxs with
        | .error e => .error e
        | .ok minDists =>
          let best := hexIxs.getD (argmaxIdx minDists) 0
          .ok ⟨hexIxs, minDists, best, hexCenters.getD best default⟩

instance : DecidableEq (Except SelErr SelectionResult) := fun a b =>
  match a, b with
  | .ok a, .ok b => decidable_of_iff (a = b) (by simp)
  | .error a, .error b => decidable_of_iff (a = b) (by simp)
  | .ok _, .error _ => isFalse (by simp)
  | .error _, .ok _ => isFalse (by simp)

/-! ### The lattice functions check_hex_lattice and hex_verts2faces -/

/-- The failure modes of the two lattice functions.  `notFlat`,
`invalidFlatside` and `notPeriodic` are the `raise ValueError` sites of
`check_hex_lattice` (the periodicity errors name the offending box
direction, the flatside error names the offending value, as the
messages in the source do); `integrity` is the face-count `ValueError`
of `hex_verts2faces`; `emptyVerts` stands for the `IndexError` numpy
raises for `verts[0, 2]` on an empty vertex array. -/
inductive LatticeErr where
  | notFlat
  | invalidFlatside (given : String)
  | notPeriodic (dir : String)
  | integrity (nFaces nVerts : ℕ)
  | emptyVerts
deriving DecidableEq

/-- Is this the internal-consistency (face-count) error? -/
def LatticeErr.isIntegrity : LatticeErr → Bool
  | .integrity _ _ => true
  | _ => false

/-- `check_hex_lattice(verts, r0, box, flatside, tol)` (source lines
86-145): wrap the vertices into the primary cell, require all wrapped
z coordinates to agree with the first one within `tol`
(`np.allclose(verts[:, 2], verts[0, 2], rtol=0, atol=tol)`), resolve
`flatside` into the in-plane axes, then require
`np.isclose(box[ix0] % (r0 * 3), 0, rtol=0, atol=tol)` and
`np.isclose(box[ix1] % (r0 * np.sqrt(3)), 0, rtol=0, atol=tol)`. -/
def check_hex_lattice (sqrt3 : ℚ) (verts : List Pos) (r0 : ℚ) (box : Box)
    (flatside : String) (tol : ℚ) : Except LatticeErr Unit :=
  match verts.map (wrapPos box) with
  | [] => .error .emptyVerts
  | v0 :: rest =>
    if !((v0 :: rest).all (fun v => |v.z - v0.z| ≤ tol)) then .error .notFlat
    else if flatside = "x" then
      if ¬ (|fmod box.lx (r0 * 3)| ≤ tol) then .error (.notPeriodic "x")
      else if ¬ (|fmod box.ly (r0 * sqrt3)| ≤ tol) then .error (.notPeriodic "y")
      else .ok ()
    else if flatside = "y" then
      if ¬ (|fmod box.ly (r0 * 3)| ≤ tol) then .error (.notPeriodic "y")
      else if ¬ (|fmod box.lx (r0 * sqrt3)| ≤ tol) then .error (.notPeriodic "x")
      else .ok ()
    else .error (.invalidFlatside flatside)

/-- The sort order of the returned faces: x position as primary key,
y position as secondary key, z position as tertiary key
(`np.lexsort(faces[:, ::-1].T)`). -/
def lexLe (a b : Pos) : Prop :=
  a.x < b.x ∨ (a.x = b.x ∧ (a.y < b.y ∨ (a.y = b.y ∧ a.z ≤ b.z)))

instance : DecidableRel lexLe := fun a b => by
  unfold lexLe
  infer_instance

instance : IsTotal Pos lexLe := ⟨by
  intro a b
  unfold lexLe
  rcases lt_trichotomy a.x b.x with h | h | h
  · exact Or.inl (Or.inl h)
  · rcases lt_trichotomy a.y b.y with h2 | h2 | h2
    · exact Or.inl (Or.inr ⟨h, Or.inl h2⟩)
    · rcases le_total a.z b.z with h3 | h3
      · exact Or.inl (Or.inr ⟨h, Or.inr ⟨h2, h3⟩⟩)
      · exact Or.inr (Or.inr ⟨h.symm, Or.inr ⟨h2.symm, h3⟩⟩)
    · exact Or.inr (Or.inr ⟨h.symm, Or.inl h2⟩)
  · exact Or.inr (Or.inl h)⟩

instance : IsTrans Pos lexLe := ⟨by
  intro a b c hab hbc
  unfold lexLe at hab hbc ⊢
  rcases hab with h1 | ⟨hx1, h1⟩
  · rcases hbc with h2 | ⟨hx2, h2⟩
    · exact Or.inl (lt_trans h1 h2)
    · exact Or.inl (hx2 ▸ h1)
  · rcases hbc with h2 | ⟨hx2, h2⟩
    · exact Or.inl (hx1 ▸ h2)
    · refine Or.inr ⟨hx1.trans hx2, ?_⟩
      rcases h1 with h1 | ⟨hy1, h1⟩
      · rcases h2 with h2 | ⟨hy2, h2⟩
        · exact Or.inl (lt_trans h1 h2)
        · exact Or.inl (hy2 ▸ h1)
      · rcases h2 with h2 | ⟨hy2, h2⟩
        · exact Or.inl (hy1 ▸ h2)
        · exact Or.inr ⟨hy1.trans hy2, le_trans h1 h2⟩⟩

/-- `hex_verts2faces(verts, r0, box, flatside, tol)` (source lines
148-216): validate the lattice, wrap the vertices, shift them by `r0`
along `flatside`, re-wrap, round both vertex and shifted coordinates to
`precision tol` decimal places, keep only the shifted positions whose
rounded `flatside` coordinate does not occur among the rounded vertex
coordinates (`np.isin(..., invert=True)`), require the face count to be
exactly half the vertex count, and sort the survivors by (x, y, z). -/
def hex_verts2faces (sqrt3 : ℚ) (verts : List Pos) (r0 : ℚ) (box : Box)
    (flatside : String) (tol : ℚ) : Except LatticeErr (List Pos) :=
  match check_hex_lattice sqrt3 verts r0 box flatside tol with
  | .error e => .error e
  | .ok _ =>
    let w := verts.map (wrapPos box)
    match (if flatside = "x" then
             .ok (w.map (fun v => ⟨v.x + r0, v.y, v.z⟩))
           else if flatside = "y" then
             .ok (w.map (fun v => ⟨v.x, v.y + r0, v.z⟩))
           else .error (.invalidFlatside flatside) :
           Except LatticeErr (List Pos)) with
    | .error e => .error e
    | .ok faces0 =>
      let facesR := (faces0.map (wrapPos box)).map (roundPos (precision tol))
      let wR := w.map (roundPos (precision tol))
      let faces :=
        if flatside = "x" then
          facesR.filter (fun q => !(wR.any (fun v => v.x == q.x)))
        else
          facesR.filter (fun q => !(wR.any (fun v => v.y == q.y)))
      if 2 * faces.length ≠ verts.length then
        .error (.integrity faces.length verts.length)
      else
        .ok (faces.insertionSort lexLe)

/-- `hex_centers[:, 2] += z_shift` (line 308): shift every candidate
position along the surface normal. -/
def shiftZ (zshift : ℚ) (centers : List Pos) : List Pos :=
  centers.map (fun c => ⟨c.x, c.y, c.z + zshift⟩)

/-! ### Concrete inputs used by witnesses and counterexamples -/

/-- A 3 x 7/4 x 10 orthorhombic box (side length 1, `sqrt3` stand-in 7/4). -/
def box4 : Box := ⟨3, 7/4, 10⟩

/-- A flat 4-vertex honeycomb patch for `box4` (one rectangular unit
cell, edges along x). -/
def vertsA : List Pos := [⟨0,0,0⟩, ⟨1,0,0⟩, ⟨3/2,7/8,0⟩, ⟨5/2,7/8,0⟩]

/-- The two face centers `hex_verts2faces` computes from `vertsA`. -/
def facesA : List Pos := [⟨1/2,7/8,0⟩, ⟨2,0,0⟩]

/-- The same patch as `vertsA` with the second vertex row raised by
3/5000, still within the flatness tolerance 1/1000. -/
def vertsB : List Pos := [⟨0,0,0⟩, ⟨1,0,0⟩, ⟨3/2,7/8,3/5000⟩, ⟨5/2,7/8,3/5000⟩]

/-- The two face centers `hex_verts2faces` computes from `vertsB`:
rounding to 3 decimals turns 3/5000 into 1/1000, so the two faces have
distinct z coordinates. -/
def facesB : List Pos := [⟨1/2,7/8,1/1000⟩, ⟨2,0,0⟩]

/-! ### Helper lemmas about the selector building blocks -/

theorem npMin_eq_none {α : Type} [LinearOrder α] {l : List α} :
    npMin l = none ↔ l = [] := by
  cases l with
  | nil => simp [npMin]
  | cons a l =>
    simp only [npMin]
    cases npMin l <;> simp

theorem npMin_mem {α : Type} [LinearOrder α] {l : List α} {m : α}
    (h : npMin l = some m) : m ∈ l := by
  induction l generalizing m with
  | nil => simp [npMin] at h
  | cons a l ih =>
    simp only [npMin] at h
    cases hl : npMin l with
    | none =>
      rw [hl] at h
      simp only [Option.some.injEq] at h
      simp [← h]
    | some m2 =>
      rw [hl] at h
      simp only [Option.some.injEq] at h
      rcases min_choice a m2 with hc | hc
      · rw [← h, hc]; exact List.mem_cons_self a l
      · rw [← h, hc]; exact List.mem_cons_of_mem a (ih hl)

theorem npMin_le {α : Type} [LinearOrder α] {l : List α} {m : α}
    (h : npMin l = some m) : ∀ x ∈ l, m ≤ x := by
  induction l generalizing m with
  | nil => simp [npMin] at h
  | cons a l ih =>
    simp only [npMin] at h
    cases hl : npMin l with
    | none =>
      rw [hl] at h
      simp only [Option.some.injEq] at h
      rw [npMin_eq_none] at hl
      subst hl
      simp [← h]
    | some m2 =>
      rw [hl] at h
      simp only [Option.some.injEq] at h
      intro x hx
      rcases List.mem_cons.mp hx with hxa | hxl
      · rw [← h, hxa]; exact min_le_left _ _
      · rw [← h]; exact le_trans (min_le_right _ _) (ih hl x hxl)

theorem npMin_isSome {α : Type} [LinearOrder α] {l : List α} (h : l ≠ []) :
    (npMin l).isSome := by
  cases hm : npMin l with
  | none => exact absurd (npMin_eq_none.mp hm) h
  | some m => rfl

theorem argmaxIdx_spec (l : List ℚ) (hne : l ≠ []) :
    argmaxIdx l < l.length ∧
    (∀ i, i < l.length → l.getD i 0 ≤ l.getD (argmaxIdx l) 0) ∧
    (∀ i, i < argmaxIdx l → l.getD i 0 < l.getD (argmaxIdx l) 0) := by
  induction l with
  | nil => exact absurd rfl hne
  | cons a l ih =>
    by_cases hl : l = []
    · subst hl
      refine ⟨by simp [argmaxIdx], ?_, ?_⟩
      · intro i hi
        cases i with
        | zero => simp [argmaxIdx]
        | succ i => simp at hi
      · intro i hi
        simp [argmaxIdx] at hi
    · obtain ⟨h1, h2, h3⟩ := ih hl
      have hgetDa : l.getD (argmaxIdx l) a = l.getD (argmaxIdx l) 0 := by
        rw [List.getD_eq_getElem l a h1, List.getD_eq_getElem l 0 h1]
      simp only [argmaxIdx]
      by_cases hc : a < l.getD (argmaxIdx l) a
      · rw [if_pos hc]
        rw [hgetDa] at hc
        refine ⟨by simpa using h1, ?_, ?_⟩
        · intro i hi
          cases i with
          | zero =>
            simp only [List.getD_cons_zero, List.getD_cons_succ]
            exact le_of_lt hc
          | succ i =>
            simp only [List.getD_cons_succ]
            exact h2 i (by simpa using hi)
        · intro i hi
          cases i with
          | zero =>
            simp only [List.getD_cons_zero, List.getD_cons_succ]
            exact hc
          | succ i =>
            simp only [List.getD_cons_succ]
            exact h3 i (by simpa using hi)
      · rw [if_neg hc]
        push_neg at hc
        rw [hgetDa] at hc
        refine ⟨by simp, ?_, ?_⟩
        · intro i hi
          cases i with
          | zero => simp
          | succ i =>
            simp only [List.getD_cons_succ, List.getD_cons_zero]
            exact le_trans (h2 i (by simpa using hi)) hc
        · intro i hi
          simp at hi

theorem collectMinDists_error {dists : List (List ℚ)} {rmax : ℚ}
    {ixs : List ℕ} {e : SelErr}
    (h : collectMinDists dists rmax ixs = .error e) : e = .numpyEmptyMin := by
  induction ixs with
  | nil => simp [collectMinDists] at h
  | cons i is ih =>
    simp only [collectMinDists] at h
    cases hm : npMin (contactDists (dists.getD i []) rmax) with
    | none =>
      rw [hm] at h
      simpa using h.symm
    | some d =>
      rw [hm] at h
      cases hc : collectMinDists dists rmax is with
      | error e2 =>
        rw [hc] at h
        simp only [Except.error.injEq] at h
        exact ih (h ▸ hc)
      | ok ds => rw [hc] at h; simp at h

theorem collectMinDists_ok {dists : List (List ℚ)} {rmax : ℚ} :
    ∀ {ixs : List ℕ} {ds : List ℚ},
      collectMinDists dists rmax ixs = .ok ds →
      ds.length = ixs.length ∧
      ∀ k, (hk : k < ixs.length) → (hk2 : k < ds.length) →
        npMin (contactDists (dists.getD (ixs.get ⟨k, hk⟩) []) rmax) =
          some (ds.get ⟨k, hk2⟩) := by
  intro ixs
  induction ixs with
  | nil =>
    intro ds h
    simp only [collectMinDists, Except.ok.injEq] at h
    subst h
    exact ⟨rfl, fun k hk _ => absurd hk (by simp)⟩
  | cons i is ih =>
    intro ds h
    simp only [collectMinDists] at h
    cases hm : npMin (contactDists (dists.getD i []) rmax) with
    | none => rw [hm] at h; simp at h
    | some d =>
      rw [hm] at h
      cases hc : collectMinDists dists rmax is with
      | error e => rw [hc] at h; simp at h
      | ok ds2 =>
        rw [hc] at h
        simp only [Except.ok.injEq] at h
        subst h
        obtain ⟨hlen, hget⟩ := ih hc
        refine ⟨by simp [hlen], ?_⟩
        intro k hk hk2
        cases k with
        | zero => simpa using hm
        | succ k => exact hget k (by simpa using hk) (by simpa using hk2)

theorem collectMinDists_ok_mem {dists : List (List ℚ)} {rmax : ℚ}
    {ixs : List ℕ} {ds : List ℚ} (h : collectMinDists dists rmax ixs = .ok ds) :
    ∀ d ∈ ds, ∃ i ∈ ixs, npMin (contactDists (dists.getD i []) rmax) = some d := by
  intro d hd
  obtain ⟨hlen, hget⟩ := collectMinDists_ok h
  obtain ⟨⟨k, hk⟩, hdk⟩ := List.mem_iff_get.mp hd
  refine ⟨ixs.get ⟨k, hlen ▸ hk⟩, List.get_mem _ _ _, ?_⟩
  rw [hget k (hlen ▸ hk) hk, hdk]

theorem mem_tooCloseIxs {dists : List (List ℚ)} {rmin : ℚ} {i : ℕ} :
    i ∈ tooCloseIxs dists rmin ↔
      i < dists.length ∧ tooCloseRow (dists.getD i []) rmin = true := by
  simp [tooCloseIxs, List.mem_filter, List.mem_range]

theorem mem_suitableIxsGiven {dists : List (List ℚ)} {rmin rmax : ℚ}
    {minN : ℕ} {i : ℕ} :
    i ∈ suitableIxsGiven dists rmin rmax minN ↔
      i < dists.length ∧ nNeighbors (dists.getD i []) rmax = minN ∧
        tooCloseRow (dists.getD i []) rmin = false := by
  simp [suitableIxsGiven, setdiff, minCountIxs, List.mem_filter,
    List.mem_range, mem_tooCloseIxs]
  intro h1
  constructor
  · rintro ⟨h3, h2⟩
    exact ⟨h2, h3.resolve_left (by omega)⟩
  · rintro ⟨h2, h3⟩
    exact ⟨Or.inr h3, h2⟩

theorem minNonDisqCount_le {dists : List (List ℚ)} {rmin rmax : ℚ} {minN : ℕ}
    (h : minNonDisqCount dists rmin rmax = some minN) :
    ∀ r ∈ dists, tooCloseRow r rmin = false → minN ≤ nNeighbors r rmax := by
  intro r hr htc
  apply npMin_le h
  simp only [List.mem_map, List.mem_filter]
  exact ⟨r, ⟨hr, by simp [htc]⟩, rfl⟩

theorem minNonDisqCount_attained {dists : List (List ℚ)} {rmin rmax : ℚ}
    {minN : ℕ} (h : minNonDisqCount dists rmin rmax = some minN) :
    ∃ r ∈ dists, tooCloseRow r rmin = false ∧ nNeighbors r rmax = minN := by
  have hm := npMin_mem h
  simp only [List.mem_map, List.mem_filter] at hm
  obtain ⟨r, ⟨hr, htc⟩, hcount⟩ := hm
  exact ⟨r, hr, by simpa using htc, hcount⟩

theorem minNonDisqCount_isSome {dists : List (List ℚ)} {rmin rmax : ℚ}
    (h : ∃ r ∈ dists, tooCloseRow r rmin = false) :
    (minNonDisqCount dists rmin rmax).isSome := by
  apply npMin_isSome
  obtain ⟨r, hr, htc⟩ := h
  intro hemp
  have : nNeighbors r rmax ∈
      (dists.filter (fun r => !(tooCloseRow r rmin))).map
        (fun r => nNeighbors r rmax) := by
    simp only [List.mem_map, List.mem_filter]
    exact ⟨r, ⟨hr, by simp [htc]⟩, rfl⟩
  rw [hemp] at this
  exact absurd this (List.not_mem_nil _)

theorem suitableIxsGiven_pairwise (dists : List (List ℚ)) (rmin rmax : ℚ)
    (minN : ℕ) : (suitableIxsGiven dists rmin rmax minN).Pairwise (· < ·) :=
  ((List.pairwise_lt_range _).filter _).filter _

/-- Destructuring of a successful run of `selectInsertion`. -/
theorem selectInsertion_ok {hexCenters : List Pos} {dists : List (List ℚ)}
    {rmin rmax : ℚ} {res : SelectionResult}
    (h : selectInsertion hexCenters dists rmin rmax = .ok res) :
    ∃ minN, minNonDisqCount dists rmin rmax = some minN ∧
      res.hexIxs = suitableIxsGiven dists rmin rmax minN ∧
      res.hexIxs ≠ [] ∧
      collectMinDists dists rmax res.hexIxs = .ok res.minDists ∧
      res.hexIxBest = res.hexIxs.getD (argmaxIdx res.minDists) 0 ∧
      res.insertionPoint = hexCenters.getD res.hexIxBest default := by
  unfold selectInsertion at h
  split at h
  · simp at h
  split at h
  · simp at h
  cases hm : minNonDisqCount dists rmin rmax with
  | none => rw [hm] at h; simp at h
  | some minN =>
    rw [hm] at h
    simp only at h
    split at h
    · simp at h
    · rename_i hne
      cases hc : collectMinDists dists rmax (suitableIxsGiven dists rmin rmax minN) with
      | error e => rw [hc] at h; simp at h
      | ok ds =>
        rw [hc] at h
        simp only [Except.ok.injEq] at h
        subst h
        refine ⟨minN, rfl, rfl, ?_, hc, rfl, rfl⟩
        intro hemp
        exact hne (by rw [List.isEmpty_iff]; exact hemp)

theorem suitableIxsGiven_ne_nil {dists : List (List ℚ)} {rmin rmax : ℚ}
    {minN : ℕ} (hm : minNonDisqCount dists rmin rmax = some minN) :
    suitableIxsGiven dists rmin rmax minN ≠ [] := by
  obtain ⟨r, hr, htc, hcount⟩ := minNonDisqCount_attained hm
  obtain ⟨⟨i, hi⟩, hget⟩ := List.mem_iff_get.mp hr
  have hgd : dists.getD i [] = r := by
    rw [List.getD_eq_getElem _ _ hi, ← hget]
    simp
  intro hnil
  have hmem : i ∈ suitableIxsGiven dists rmin rmax minN :=
    mem_suitableIxsGiven.mpr ⟨hi, by rw [hgd]; exact hcount, by rw [hgd]; exact htc⟩
  rw [hnil] at hmem
  exact absurd hmem (List.not_mem_nil _)

theorem selectInsertion_noContacts {hexCenters : List Pos}
    {dists : List (List ℚ)} {rmin rmax : ℚ}
    (h1 : (dists.any (fun r => r.any (fun d => d ≤ rmax))) = false) :
    selectInsertion hexCenters dists rmin rmax = .error .noContacts := by
  unfold selectInsertion
  rw [if_pos (by simp [h1])]

theorem selectInsertion_allDisq {hexCenters : List Pos}
    {dists : List (List ℚ)} {rmin rmax : ℚ}
    (h1 : (dists.any (fun r => r.any (fun d => d ≤ rmax))) = true)
    (h2 : (dists.all (fun r => tooCloseRow r rmin)) = true) :
    selectInsertion hexCenters dists rmin rmax = .error .allDisqualified := by
  unfold selectInsertion
  rw [if_neg (by simp [h1]), if_pos h2]

theorem selectInsertion_checks_passed {hexCenters : List Pos}
    {dists : List (List ℚ)} {rmin rmax : ℚ}
    (h1 : (dists.any (fun r => r.any (fun d => d ≤ rmax))) = true)
    (h2 : (dists.all (fun r => tooCloseRow r rmin)) = false) :
    selectInsertion hexCenters dists rmin rmax ≠ .error .noContacts ∧
    selectInsertion hexCenters dists rmin rmax ≠ .error .allDisqualified ∧
    selectInsertion hexCenters dists rmin rmax ≠ .error .emptySuitable := by
  unfold selectInsertion
  rw [if_neg (by simp [h1]), if_neg (by simp [h2])]
  cases hm : minNonDisqCount dists rmin rmax with
  | none => simp
  | some minN =>
    simp only
    split
    · rename_i hemp
      exact absurd (List.isEmpty_iff.mp hemp) (suitableIxsGiven_ne_nil hm)
    · rename_i hne
      cases hc : collectMinDists dists rmax (suitableIxsGiven dists rmin rmax minN) with
      | error e =>
        have he := collectMinDists_error hc
        subst he
        simp
      | ok ds => simp

/-! ### Claim theorems about the selector -/

/-- C4: the selection fails with the no-contact variant iff the
within-`r_max` contact matrix `dists <= r_cut` is entirely false, and,
when some contact exists, it fails with the all-disqualified variant iff
every candidate has at least one neighbor within `r_min`; the no-contact
check is performed first, so it wins when both conditions hold. -/
theorem selection_error_variants (hexCenters : List Pos)
    (dists : List (List ℚ)) (rmin rmax : ℚ) :
    (selectInsertion hexCenters dists rmin rmax = .error .noContacts ↔
      ∀ r ∈ dists, ∀ d ∈ r, ¬ d ≤ rmax) ∧
    ((∃ r ∈ dists, ∃ d ∈ r, d ≤ rmax) →
      (selectInsertion hexCenters dists rmin rmax = .error .allDisqualified ↔
        ∀ r ∈ dists, ∃ d ∈ r, d ≤ rmin)) := by
  have hcontact : (dists.any (fun r => r.any (fun d => d ≤ rmax))) = true ↔
      ∃ r ∈ dists, ∃ d ∈ r, d ≤ rmax := by simp
  have hnocontact : (dists.any (fun r => r.any (fun d => d ≤ rmax))) = false ↔
      ∀ r ∈ dists, ∀ d ∈ r, ¬ d ≤ rmax := by simp
  have halldisq : (dists.all (fun r => tooCloseRow r rmin)) = true ↔
      ∀ r ∈ dists, ∃ d ∈ r, d ≤ rmin := by simp [tooCloseRow]
  constructor
  · by_cases h1 : (dists.any (fun r => r.any (fun d => d ≤ rmax))) = true
    · have hR : ¬ (∀ r ∈ dists, ∀ d ∈ r, ¬ d ≤ rmax) := by
        obtain ⟨r, hr, d, hd, hle⟩ := hcontact.mp h1
        intro hall
        exact hall r hr d hd hle
      by_cases h2 : (dists.all (fun r => tooCloseRow r rmin)) = true
      · rw [selectInsertion_allDisq h1 h2]
        exact ⟨fun habs => absurd habs (by simp), fun hRHS => absurd hRHS hR⟩
      · have h2f : (dists.all (fun r => tooCloseRow r rmin)) = false := by
          simpa using h2
        exact ⟨fun habs =>
            absurd habs (selectInsertion_checks_passed h1 h2f).1,
          fun hRHS => absurd hRHS hR⟩
    · have h1f : (dists.any (fun r => r.any (fun d => d ≤ rmax))) = false := by
        simpa using h1
      rw [selectInsertion_noContacts h1f]
      simp only [true_iff]
      exact hnocontact.mp h1f
  · intro hex
    have h1 : (dists.any (fun r => r.any (fun d => d ≤ rmax))) = true :=
      hcontact.mpr hex
    by_cases h2 : (dists.all (fun r => tooCloseRow r rmin)) = true
    · rw [selectInsertion_allDisq h1 h2]
      simp only [true_iff]
      exact halldisq.mp h2
    · have h2f : (dists.all (fun r => tooCloseRow r rmin)) = false := by
        simpa using h2
      have hR : ¬ (∀ r ∈ dists, ∃ d ∈ r, d ≤ rmin) := fun hall =>
        h2 (halldisq.mpr hall)
      exact ⟨fun habs =>
          absurd habs (selectInsertion_checks_passed h1 h2f).2.1,
        fun hRHS => absurd hRHS hR⟩

/-- Witness for C4 at concrete inputs: one candidate whose single
neighbor is beyond the cutoff gives the no-contact error, and one
candidate with a single too-close neighbor gives the all-disqualified
error. -/
theorem selection_error_variants_witness :
    selectInsertion [⟨0,0,0⟩] [[10]] 2 8 = .error .noContacts ∧
    selectInsertion [⟨0,0,0⟩] [[1]] 2 8 = .error .allDisqualified :=
  ⟨((selection_error_variants [⟨0,0,0⟩] [[10]] 2 8).1).mpr (by decide),
   ((selection_error_variants [⟨0,0,0⟩] [[1]] 2 8).2 (by decide)).mpr (by decide)⟩

/-- C9: whenever the no-contact check and the all-disqualified check
both pass, the suitable set of step 7 is non-empty and the
empty-suitable-set error branch cannot be taken. -/
theorem suitable_set_nonempty (hexCenters : List Pos)
    (dists : List (List ℚ)) (rmin rmax : ℚ)
    (h1 : (dists.any (fun r => r.any (fun d => d ≤ rmax))) = true)
    (h2 : (dists.all (fun r => tooCloseRow r rmin)) = false) :
    suitableIxs dists rmin rmax ≠ [] ∧
    selectInsertion hexCenters dists rmin rmax ≠ .error .emptySuitable := by
  have hsome : (minNonDisqCount dists rmin rmax).isSome := by
    apply minNonDisqCount_isSome
    obtain ⟨r, hr, htc⟩ := List.all_eq_false.mp h2
    exact ⟨r, hr, by simpa using htc⟩
  obtain ⟨minN, hm⟩ := Option.isSome_iff_exists.mp hsome
  refine ⟨?_, (selectInsertion_checks_passed h1 h2).2.2⟩
  unfold suitableIxs
  rw [hm]
  exact suitableIxsGiven_ne_nil hm

/-- Witness for C9 at a concrete input: two candidates, each with one
in-range, not-too-close neighbor. -/
theorem suitable_set_nonempty_witness :
    suitableIxs [[5],[7]] 2 8 ≠ [] ∧
    selectInsertion [⟨0,0,0⟩,⟨1,0,0⟩] [[5],[7]] 2 8 ≠ .error .emptySuitable :=
  suitable_set_nonempty [⟨0,0,0⟩,⟨1,0,0⟩] [[5],[7]] 2 8 (by decide) (by decide)

/-- C2: on a successful run the suitable set is exactly the set of
candidates that are not disqualified and whose neighbor count is
minimal among the non-disqualified candidates; in particular no
candidate with a neighbor at distance at most `r_min` is suitable. -/
theorem suitable_set_characterization (hexCenters : List Pos)
    (dists : List (List ℚ)) (rmin rmax : ℚ) (res : SelectionResult)
    (h : selectInsertion hexCenters dists rmin rmax = .ok res) :
    (∀ i, i ∈ res.hexIxs ↔
      (i < dists.length ∧ tooCloseRow (dists.getD i []) rmin = false ∧
        ∀ j, j < dists.length → tooCloseRow (dists.getD j []) rmin = false →
          nNeighbors (dists.getD i []) rmax ≤ nNeighbors (dists.getD j []) rmax)) ∧
    (∀ i ∈ res.hexIxs, ∀ d ∈ dists.getD i [], rmin < d) := by
  obtain ⟨minN, hm, hhex, hne, hcol, hbest, hins⟩ := selectInsertion_ok h
  have hmemrow : ∀ j, j < dists.length → dists.getD j [] ∈ dists := by
    intro j hj
    rw [List.getD_eq_getElem _ _ hj]
    exact List.getElem_mem _
  constructor
  · intro i
    rw [hhex, mem_suitableIxsGiven]
    constructor
    · rintro ⟨hlt, hcount, htc⟩
      refine ⟨hlt, htc, ?_⟩
      intro j hj htcj
      rw [hcount]
      exact minNonDisqCount_le hm _ (hmemrow j hj) htcj
    · rintro ⟨hlt, htc, hmin⟩
      refine ⟨hlt, ?_, htc⟩
      have hge : minN ≤ nNeighbors (dists.getD i []) rmax :=
        minNonDisqCount_le hm _ (hmemrow i hlt) htc
      have hle : nNeighbors (dists.getD i []) rmax ≤ minN := by
        obtain ⟨r, hr, htcr, hcr⟩ := minNonDisqCount_attained hm
        obtain ⟨⟨j, hj⟩, hget⟩ := List.mem_iff_get.mp hr
        have hgd : dists.getD j [] = r := by
          rw [List.getD_eq_getElem _ _ hj, ← hget]
          simp
        have hmj := hmin j hj (by rw [hgd]; exact htcr)
        rw [hgd, hcr] at hmj
        exact hmj
      omega
  · intro i hi d hd
    rw [hhex, mem_suitableIxsGiven] at hi
    obtain ⟨hlt, hcount, htc⟩ := hi
    simp only [tooCloseRow, List.any_eq_false] at htc
    have := htc d hd
    simpa using not_le.mp (by simpa using this)

/-- Witness for C2 at a concrete input: three candidates with single
neighbors at distances 5, 7 and 1.9; the third is disqualified by
`r_min = 2` even though its neighbor count (1) is the global minimum. -/
theorem suitable_set_characterization_witness :
    selectInsertion [⟨0,0,0⟩,⟨1,0,0⟩,⟨2,0,0⟩] [[5],[7],[mkRat 19 10]] 2 8 =
      .ok ⟨[0,1],[5,7],1,⟨1,0,0⟩⟩ ∧
    ((∀ i, i ∈ [0,1] ↔
      (i < 3 ∧ tooCloseRow ([[5],[7],[mkRat 19 10]].getD i []) 2 = false ∧
        ∀ j, j < 3 → tooCloseRow ([[5],[7],[mkRat 19 10]].getD j []) 2 = false →
          nNeighbors ([[5],[7],[mkRat 19 10]].getD i []) 8 ≤
            nNeighbors ([[5],[7],[mkRat 19 10]].getD j []) 8)) ∧
    (∀ i ∈ [0,1], ∀ d ∈ [[5],[7],[mkRat 19 10]].getD i [], 2 < d)) :=
  ⟨by decide,
   suitable_set_characterization [⟨0,0,0⟩,⟨1,0,0⟩,⟨2,0,0⟩]
     [[5],[7],[mkRat 19 10]] 2 8 ⟨[0,1],[5,7],1,⟨1,0,0⟩⟩ (by decide)⟩

/-- C10: every nearest-neighbor distance reported for a suitable
candidate is strictly greater than `r_min` and at most `r_max`. -/
theorem suitable_nn_distance_bounds (hexCenters : List Pos)
    (dists : List (List ℚ)) (rmin rmax : ℚ) (res : SelectionResult)
    (h : selectInsertion hexCenters dists rmin rmax = .ok res) :
    ∀ d ∈ res.minDists, rmin < d ∧ d ≤ rmax := by
  obtain ⟨minN, hm, hhex, hne, hcol, hbest, hins⟩ := selectInsertion_ok h
  intro d hd
  obtain ⟨i, hi, hnp⟩ := collectMinDists_ok_mem hcol d hd
  have hdc := npMin_mem hnp
  simp only [contactDists] at hdc
  have hdf := List.mem_filter.mp hdc
  have hdrow : d ∈ dists.getD i [] := hdf.1
  have hdle : d ≤ rmax := by simpa using hdf.2
  refine ⟨?_, hdle⟩
  rw [hhex, mem_suitableIxsGiven] at hi
  obtain ⟨hlt, hcount, htc⟩ := hi
  simp only [tooCloseRow, List.any_eq_false] at htc
  have := htc d hdrow
  simpa using not_le.mp (by simpa using this)

/-- Witness for C10 at a concrete input. -/
theorem suitable_nn_distance_bounds_witness :
    selectInsertion [⟨0,0,0⟩,⟨1,0,0⟩] [[5],[7]] 2 8 =
      .ok ⟨[0,1],[5,7],1,⟨1,0,0⟩⟩ ∧
    ∀ d ∈ [(5:ℚ),7], 2 < d ∧ d ≤ 8 :=
  ⟨by decide,
   suitable_nn_distance_bounds [⟨0,0,0⟩,⟨1,0,0⟩] [[5],[7]] 2 8
     ⟨[0,1],[5,7],1,⟨1,0,0⟩⟩ (by decide)⟩

/-- C1: on a successful run the returned insertion point is the position
of the suitable candidate whose nearest-neighbor distance is largest,
and among suitable candidates sharing that largest distance the one
with the smallest index (first in face-center order) is chosen. -/
theorem best_candidate_selection (hexCenters : List Pos)
    (dists : List (List ℚ)) (rmin rmax : ℚ) (res : SelectionResult)
    (h : selectInsertion hexCenters dists rmin rmax = .ok res) :
    ∃ dBest,
      res.hexIxBest ∈ res.hexIxs ∧
      npMin (contactDists (dists.getD res.hexIxBest []) rmax) = some dBest ∧
      res.insertionPoint = hexCenters.getD res.hexIxBest default ∧
      (∀ i ∈ res.hexIxs, ∀ d,
        npMin (contactDists (dists.getD i []) rmax) = some d → d ≤ dBest) ∧
      (∀ i ∈ res.hexIxs, ∀ d,
        npMin (contactDists (dists.getD i []) rmax) = some d → d = dBest →
          res.hexIxBest ≤ i) := by
  obtain ⟨minN, hm, hhex, hne, hcol, hbest, hins⟩ := selectInsertion_ok h
  obtain ⟨hlen, hget⟩ := collectMinDists_ok hcol
  have hmdne : res.minDists ≠ [] := by
    intro h0
    rw [h0] at hlen
    exact hne (List.length_eq_zero.mp hlen.symm)
  obtain ⟨hk, hmax, hfirst⟩ := argmaxIdx_spec res.minDists hmdne
  have hklt : argmaxIdx res.minDists < res.hexIxs.length := hlen ▸ hk
  have hbest2 : res.hexIxBest = res.hexIxs.get ⟨argmaxIdx res.minDists, hklt⟩ := by
    rw [hbest, List.getD_eq_getElem _ _ hklt]
    simp
  have hpair : res.hexIxs.Pairwise (· < ·) := by
    rw [hhex]
    exact suitableIxsGiven_pairwise dists rmin rmax minN
  refine ⟨res.minDists.get ⟨argmaxIdx res.minDists, hk⟩, ?_, ?_, hins, ?_, ?_⟩
  · rw [hbest2]
    exact List.get_mem _ _ _
  · rw [hbest2]
    exact hget _ hklt hk
  · intro i hi d hnp
    obtain ⟨⟨k2, hk2⟩, hgetk2⟩ := List.mem_iff_get.mp hi
    have h2 := hget k2 hk2 (hlen ▸ hk2)
    rw [hgetk2, hnp] at h2
    have hd := Option.some.inj h2
    rw [hd]
    have hm2 := hmax k2 (hlen ▸ hk2)
    rw [List.getD_eq_getElem _ _ (hlen ▸ hk2), List.getD_eq_getElem _ _ hk] at hm2
    simpa using hm2
  · intro i hi d hnp hdbest
    obtain ⟨⟨k2, hk2⟩, hgetk2⟩ := List.mem_iff_get.mp hi
    have h2 := hget k2 hk2 (hlen ▸ hk2)
    rw [hgetk2, hnp] at h2
    have hd := Option.some.inj h2
    have hkk2 : ¬ k2 < argmaxIdx res.minDists := by
      intro hlt
      have hstrict := hfirst k2 hlt
      rw [List.getD_eq_getElem _ _ (hlen ▸ hk2), List.getD_eq_getElem _ _ hk]
        at hstrict
      have hstrict2 : res.minDists.get ⟨k2, hlen ▸ hk2⟩ <
          res.minDists.get ⟨argmaxIdx res.minDists, hk⟩ := hstrict
      rw [← hd, ← hdbest] at hstrict2
      exact lt_irrefl _ hstrict2
    rcases Nat.eq_or_lt_of_le (Nat.le_of_not_lt hkk2) with heq | hlt
    · rw [hbest2, ← hgetk2]
      apply le_of_eq
      congr 1
      exact Fin.ext heq
    · rw [hbest2, ← hgetk2]
      exact le_of_lt (List.pairwise_iff_get.mp hpair _ _ hlt)

/-- Witness for C1 at a concrete input: two candidates with
nearest-neighbor distances 5 and 7; the second (distance 7) is chosen
and its position is returned. -/
theorem best_candidate_selection_witness :
    selectInsertion [⟨0,0,0⟩,⟨1,0,0⟩] [[5],[7]] 2 8 =
      .ok ⟨[0,1],[5,7],1,⟨1,0,0⟩⟩ ∧
    ∃ dBest,
      1 ∈ [0,1] ∧
      npMin (contactDists ([[5],[7]].getD 1 []) 8) = some dBest ∧
      (⟨1,0,0⟩ : Pos) = [(⟨0,0,0⟩ : Pos),⟨1,0,0⟩].getD 1 default ∧
      (∀ i ∈ [0,1], ∀ d,
        npMin (contactDists ([[5],[7]].getD i []) 8) = some d → d ≤ dBest) ∧
      (∀ i ∈ [0,1], ∀ d,
        npMin (contactDists ([[5],[7]].getD i []) 8) = some d → d = dBest →
          1 ≤ i) :=
  ⟨by decide,
   best_candidate_selection [⟨0,0,0⟩,⟨1,0,0⟩] [[5],[7]] 2 8
     ⟨[0,1],[5,7],1,⟨1,0,0⟩⟩ (by decide)⟩


/-! ### Helper lemmas about the lattice functions -/

theorem precision_milli : precision (1/1000) = 3 := by
  have h : (1/1000 : ℚ) = ((10 : ℕ) : ℚ) ^ (-3 : ℤ) := by norm_num
  rw [precision, h, Int.log_zpow (by norm_num)]
  norm_num

theorem toNat_three : (3 : ℤ).toNat = 3 := rfl

theorem roundTo3_0 : roundTo 3 0 = 0 := by
  norm_num [roundTo, roundHalfEven, pow10, toNat_three, Int.fract]
theorem roundTo3_half : roundTo 3 (1/2) = 1/2 := by
  norm_num [roundTo, roundHalfEven, pow10, toNat_three, Int.fract]
theorem roundTo3_1 : roundTo 3 1 = 1 := by
  norm_num [roundTo, roundHalfEven, pow10, toNat_three, Int.fract]
theorem roundTo3_32 : roundTo 3 (3/2) = 3/2 := by
  norm_num [roundTo, roundHalfEven, pow10, toNat_three, Int.fract]
theorem roundTo3_2 : roundTo 3 2 = 2 := by
  norm_num [roundTo, roundHalfEven, pow10, toNat_three, Int.fract]
theorem roundTo3_52 : roundTo 3 (5/2) = 5/2 := by
  norm_num [roundTo, roundHalfEven, pow10, toNat_three, Int.fract]
theorem roundTo3_78 : roundTo 3 (7/8) = 7/8 := by
  norm_num [roundTo, roundHalfEven, pow10, toNat_three, Int.fract]
theorem roundTo3_small : roundTo 3 (3/5000) = 1/1000 := by
  norm_num [roundTo, roundHalfEven, pow10, toNat_three, Int.fract]

theorem check_A : check_hex_lattice (7/4) vertsA 1 box4 "x" (1/1000) = .ok () := by
  norm_num [check_hex_lattice, wrapPos, fmod, vertsA, box4, List.map, List.all]

theorem hex_run_A :
    hex_verts2faces (7/4) vertsA 1 box4 "x" (1/1000) = .ok facesA := by
  have hwA : vertsA.map (wrapPos box4) = vertsA := by
    norm_num [vertsA, box4, List.map, wrapPos, fmod]
  simp only [hex_verts2faces, check_A, hwA, precision_milli]
  norm_num [vertsA, box4, facesA, List.map, wrapPos, fmod, roundPos,
    roundTo3_0, roundTo3_half, roundTo3_1, roundTo3_32, roundTo3_2,
    roundTo3_52, roundTo3_78, List.filter_cons, List.insertionSort,
    List.orderedInsert, lexLe]

theorem check_B : check_hex_lattice (7/4) vertsB 1 box4 "x" (1/1000) = .ok () := by
  norm_num [check_hex_lattice, wrapPos, fmod, vertsB, box4, List.map, List.all]
  intro h
  rw [abs_of_nonneg (by norm_num)] at h
  norm_num at h

theorem hex_run_B :
    hex_verts2faces (7/4) vertsB 1 box4 "x" (1/1000) = .ok facesB := by
  have hwB : vertsB.map (wrapPos box4) = vertsB := by
    norm_num [vertsB, box4, List.map, wrapPos, fmod]
  simp only [hex_verts2faces, check_B, hwB, precision_milli]
  norm_num [vertsB, box4, facesB, List.map, wrapPos, fmod, roundPos,
    roundTo3_0, roundTo3_half, roundTo3_1, roundTo3_32, roundTo3_2,
    roundTo3_52, roundTo3_78, roundTo3_small, List.filter_cons,
    List.insertionSort, List.orderedInsert, lexLe]

theorem check_ok_flatside {sqrt3 : ℚ} {verts : List Pos} {r0 : ℚ} {box : Box}
    {flatside : String} {tol : ℚ}
    (h : check_hex_lattice sqrt3 verts r0 box flatside tol = .ok ()) :
    flatside = "x" ∨ flatside = "y" := by
  unfold check_hex_lattice at h
  split at h
  · exact absurd h (by simp)
  · split at h
    · exact absurd h (by simp)
    · split at h
      · rename_i hx
        exact Or.inl hx
      · split at h
        · rename_i hy
          exact Or.inr hy
        · exact absurd h (by simp)

/-! ### Claim theorems about the lattice functions -/

/-- C3: for a vertex set accepted by the lattice validation and of even
size, `hex_verts2faces` either returns exactly half as many face centers
as there are vertices or fails with the internal-consistency
(face-count) error; no other outcome is possible. -/
theorem face_count_invariant (sqrt3 : ℚ) (verts : List Pos) (r0 : ℚ)
    (box : Box) (flatside : String) (tol : ℚ)
    (hchk : check_hex_lattice sqrt3 verts r0 box flatside tol = .ok ())
    (_hEven : Even verts.length) :
    (∀ faces, hex_verts2faces sqrt3 verts r0 box flatside tol = .ok faces →
      faces.length = verts.length / 2) ∧
    (∀ e, hex_verts2faces sqrt3 verts r0 box flatside tol = .error e →
      e.isIntegrity = true) := by
  have hfs := check_ok_flatside hchk
  constructor
  · intro faces h
    unfold hex_verts2faces at h
    rw [hchk] at h
    simp only at h
    split at h
    · simp at h
    · split at h <;> split at h <;>
        first
        | exact Except.noConfusion h
        | (injection h with h
           subst h
           rw [(List.perm_insertionSort lexLe _).length_eq]
           omega)
  · intro e h
    unfold hex_verts2faces at h
    rw [hchk] at h
    simp only at h
    split at h
    · rename_i e2 hite
      rcases hfs with hx | hy
      · rw [if_pos hx] at hite
        simp at hite
      · rw [if_neg (by simp [hy]), if_pos hy] at hite
        simp at hite
    · split at h <;> split at h <;>
        first
        | exact Except.noConfusion h
        | (injection h with h
           rw [← h]
           rfl)

/-- Witness for C3: the concrete 4-vertex lattice `vertsA` is accepted,
has even size, and resolves to exactly 4/2 = 2 face centers. -/
theorem face_count_invariant_witness :
    check_hex_lattice (7/4) vertsA 1 box4 "x" (1/1000) = .ok () ∧
    Even vertsA.length ∧
    (∀ faces, hex_verts2faces (7/4) vertsA 1 box4 "x" (1/1000) = .ok faces →
      faces.length = vertsA.length / 2) ∧
    (∀ e, hex_verts2faces (7/4) vertsA 1 box4 "x" (1/1000) = .error e →
      e.isIntegrity = true) :=
  ⟨check_A, by decide,
   (face_count_invariant (7/4) vertsA 1 box4 "x" (1/1000) check_A (by decide)).1,
   (face_count_invariant (7/4) vertsA 1 box4 "x" (1/1000) check_A (by decide)).2⟩

/-- C7: every face list returned by `hex_verts2faces` is sorted
non-decreasingly by x as primary, y as secondary and z as tertiary key. -/
theorem faces_sorted (sqrt3 : ℚ) (verts : List Pos) (r0 : ℚ) (box : Box)
    (flatside : String) (tol : ℚ) (faces : List Pos)
    (h : hex_verts2faces sqrt3 verts r0 box flatside tol = .ok faces) :
    faces.Sorted lexLe := by
  unfold hex_verts2faces at h
  repeat'
    first
    | exact Except.noConfusion h
    | (injection h with h
       subst h
       exact List.sorted_insertionSort lexLe _)
    | split at h
    | simp only at h

/-- Witness for C7: the face list computed from `vertsA` is sorted. -/
theorem faces_sorted_witness :
    hex_verts2faces (7/4) vertsA 1 box4 "x" (1/1000) = .ok facesA ∧
    facesA.Sorted lexLe :=
  ⟨hex_run_A, faces_sorted (7/4) vertsA 1 box4 "x" (1/1000) facesA hex_run_A⟩

/-- C6 (amended): for every vertex set whose wrapped vertices pass the
flatness check, calling resolve with a `flatside` other than "x" or "y"
fails with the invalid-argument error naming the offending value.  (The
claim as stated over all vertex sets is false: the flatness check runs
first, so a non-flat vertex set fails with the flat-lattice error even
when `flatside` is invalid; see the counterexample.) -/
theorem invalid_flatside_error (sqrt3 : ℚ) (verts : List Pos) (r0 : ℚ)
    (box : Box) (flatside : String) (tol : ℚ) (v0 : Pos) (rest : List Pos)
    (hw : verts.map (wrapPos box) = v0 :: rest)
    (hflat : ((v0 :: rest).all (fun v => |v.z - v0.z| ≤ tol)) = true)
    (hx : flatside ≠ "x") (hy : flatside ≠ "y") :
    hex_verts2faces sqrt3 verts r0 box flatside tol =
      .error (.invalidFlatside flatside) := by
  have hchk : check_hex_lattice sqrt3 verts r0 box flatside tol =
      .error (.invalidFlatside flatside) := by
    unfold check_hex_lattice
    rw [hw]
    simp [hflat, hx, hy]
  unfold hex_verts2faces
  rw [hchk]

/-- Witness for the amended C6: a flat one-vertex set with
`flatside = "z"` gives the invalid-argument error naming "z". -/
theorem invalid_flatside_error_witness :
    ([(⟨0,0,0⟩ : Pos)].map (wrapPos box4) = [⟨0,0,0⟩]) ∧
    (([(⟨0,0,0⟩ : Pos)].all (fun v => |v.z - (0:ℚ)| ≤ 1/1000)) = true) ∧
    hex_verts2faces (7/4) [⟨0,0,0⟩] 1 box4 "z" (1/1000) =
      .error (.invalidFlatside "z") := by
  have hw : ([(⟨0,0,0⟩ : Pos)].map (wrapPos box4)) = [⟨0,0,0⟩] := by
    norm_num [List.map, wrapPos, fmod, box4]
  have hflat : (([(⟨0,0,0⟩ : Pos)].all (fun v => |v.z - (0:ℚ)| ≤ 1/1000))) = true := by
    norm_num [List.all]
  exact ⟨hw, hflat,
    invalid_flatside_error (7/4) [⟨0,0,0⟩] 1 box4 "z" (1/1000) ⟨0,0,0⟩ []
      hw hflat (by decide) (by decide)⟩

/-- Counterexample to C6 as stated: with a non-flat vertex set the call
with the invalid `flatside = "z"` fails with the flat-lattice error, not
with the invalid-argument error naming "z". -/
theorem invalid_flatside_cex :
    hex_verts2faces (7/4) [⟨0,0,0⟩, ⟨0,0,5⟩] 1 box4 "z" (1/1000) =
      .error .notFlat ∧
    hex_verts2faces (7/4) [⟨0,0,0⟩, ⟨0,0,5⟩] 1 box4 "z" (1/1000) ≠
      .error (.invalidFlatside "z") := by
  have h : hex_verts2faces (7/4) [⟨0,0,0⟩, ⟨0,0,5⟩] 1 box4 "z" (1/1000) =
      .error .notFlat := by
    have hchk : check_hex_lattice (7/4) [(⟨0,0,0⟩ : Pos), ⟨0,0,5⟩] 1 box4 "z"
        (1/1000) = .error .notFlat := by
      norm_num [check_hex_lattice, wrapPos, fmod, box4, List.map, List.all]
    unfold hex_verts2faces
    rw [hchk]
  refine ⟨h, ?_⟩
  rw [h]
  simp

theorem fmod_nonneg_of_pos {L m : ℚ} (hm : 0 < m) : 0 ≤ fmod L m := by
  unfold fmod
  have h1 : (⌊L / m⌋ : ℚ) ≤ L / m := Int.floor_le _
  have h2 : (⌊L / m⌋ : ℚ) * m ≤ (L / m) * m := mul_le_mul_of_nonneg_right h1 hm.le
  rw [div_mul_cancel₀ _ (ne_of_gt hm)] at h2
  linarith

/-- The acceptance condition `|L % m| <= tol` of the periodicity checks,
rephrased: `L` lies at, or at most `tol` above, an integer multiple of
`m`. -/
theorem fmod_le_iff {L m tol : ℚ} (hm : 0 < m) :
    |fmod L m| ≤ tol ↔ ∃ k : ℤ, k * m ≤ L ∧ L - k * m ≤ tol := by
  rw [abs_of_nonneg (fmod_nonneg_of_pos hm)]
  constructor
  · intro h
    refine ⟨⌊L / m⌋, ?_, ?_⟩
    · have := @fmod_nonneg_of_pos L m hm
      unfold fmod at this
      linarith
    · unfold fmod at h
      linarith
  · rintro ⟨k, hk1, hk2⟩
    have hk : k ≤ ⌊L / m⌋ := by
      apply Int.le_floor.mpr
      rw [le_div_iff₀ hm]
      linarith
    have hmul : (k : ℚ) * m ≤ (⌊L / m⌋ : ℚ) * m := by
      apply mul_le_mul_of_nonneg_right _ hm.le
      exact_mod_cast hk
    unfold fmod
    linarith

/-- C5 (amended): for wrapped vertices passing the flatness check and a
valid `flatside`, the validation accepts iff the box length along
`flatside` lies at, or at most `tol` above, an integer multiple of
`3 * r0` and the box length along the other in-plane axis lies at, or
at most `tol` above, an integer multiple of `sqrt3 * r0`; the first
violated condition determines the reported direction.  (The claim as
stated, with acceptance for lengths within `tol` of a multiple on
either side, is false: the check uses `box % m <= tol`, which rejects
lengths slightly below a multiple; see the counterexample.) -/
theorem box_periodicity_check (sqrt3 : ℚ) (verts : List Pos) (r0 : ℚ)
    (box : Box) (flatside : String) (tol : ℚ) (v0 : Pos) (rest : List Pos)
    (hr0 : 0 < r0) (hs3 : 0 < sqrt3)
    (hw : verts.map (wrapPos box) = v0 :: rest)
    (hflat : ((v0 :: rest).all (fun v => |v.z - v0.z| ≤ tol)) = true)
    (hfs : flatside = "x" ∨ flatside = "y") :
    (check_hex_lattice sqrt3 verts r0 box flatside tol = .ok () ↔
      ((∃ k : ℤ, k * (r0 * 3) ≤ (if flatside = "x" then box.lx else box.ly) ∧
          (if flatside = "x" then box.lx else box.ly) - k * (r0 * 3) ≤ tol) ∧
        (∃ k : ℤ, k * (r0 * sqrt3) ≤ (if flatside = "x" then box.ly else box.lx) ∧
          (if flatside = "x" then box.ly else box.lx) - k * (r0 * sqrt3) ≤ tol))) ∧
    ((¬ ∃ k : ℤ, k * (r0 * 3) ≤ (if flatside = "x" then box.lx else box.ly) ∧
          (if flatside = "x" then box.lx else box.ly) - k * (r0 * 3) ≤ tol) →
      check_hex_lattice sqrt3 verts r0 box flatside tol =
        .error (.notPeriodic flatside)) ∧
    ((∃ k : ℤ, k * (r0 * 3) ≤ (if flatside = "x" then box.lx else box.ly) ∧
          (if flatside = "x" then box.lx else box.ly) - k * (r0 * 3) ≤ tol) →
      (¬ ∃ k : ℤ, k * (r0 * sqrt3) ≤ (if flatside = "x" then box.ly else box.lx) ∧
          (if flatside = "x" then box.ly else box.lx) - k * (r0 * sqrt3) ≤ tol) →
      check_hex_lattice sqrt3 verts r0 box flatside tol =
        .error (.notPeriodic (if flatside = "x" then "y" else "x"))) := by
  have h3 : 0 < r0 * 3 := by linarith
  have hs : 0 < r0 * sqrt3 := by positivity
  rcases hfs with hfx | hfy
  · subst hfx
    have hform : check_hex_lattice sqrt3 verts r0 box "x" tol =
        (if ¬ (|fmod box.lx (r0 * 3)| ≤ tol) then .error (.notPeriodic "x")
         else if ¬ (|fmod box.ly (r0 * sqrt3)| ≤ tol) then
           .error (.notPeriodic "y")
         else .ok ()) := by
      unfold check_hex_lattice
      rw [hw]
      simp [hflat]
    have hiff1 := @fmod_le_iff box.lx (r0 * 3) tol h3
    have hiff2 := @fmod_le_iff box.ly (r0 * sqrt3) tol hs
    simp only [if_pos rfl, hform]
    by_cases h1 : |fmod box.lx (r0 * 3)| ≤ tol <;>
      by_cases h2 : |fmod box.ly (r0 * sqrt3)| ≤ tol
    · rw [if_neg (by simpa using h1), if_neg (by simpa using h2)]
      refine ⟨⟨fun _ => ⟨hiff1.mp h1, hiff2.mp h2⟩, fun _ => rfl⟩, ?_, ?_⟩
      · intro hn1
        exact absurd (hiff1.mp h1) hn1
      · intro _ hn2
        exact absurd (hiff2.mp h2) hn2
    · rw [if_neg (by simpa using h1), if_pos (by simpa using h2)]
      refine ⟨⟨fun habs => absurd habs (by simp), ?_⟩, ?_, fun _ _ => rfl⟩
      · rintro ⟨_, he2⟩
        exact absurd (hiff2.mpr he2) h2
      · intro hn1
        exact absurd (hiff1.mp h1) hn1
    · rw [if_pos (by simpa using h1)]
      refine ⟨⟨fun habs => absurd habs (by simp), ?_⟩, fun _ => rfl, ?_⟩
      · rintro ⟨he1, _⟩
        exact absurd (hiff1.mpr he1) h1
      · intro he1 _
        exact absurd (hiff1.mpr he1) h1
    · rw [if_pos (by simpa using h1)]
      refine ⟨⟨fun habs => absurd habs (by simp), ?_⟩, fun _ => rfl, ?_⟩
      · rintro ⟨he1, _⟩
        exact absurd (hiff1.mpr he1) h1
      · intro he1 _
        exact absurd (hiff1.mpr he1) h1
  · subst hfy
    have hform : check_hex_lattice sqrt3 verts r0 box "y" tol =
        (if ¬ (|fmod box.ly (r0 * 3)| ≤ tol) then .error (.notPeriodic "y")
         else if ¬ (|fmod box.lx (r0 * sqrt3)| ≤ tol) then
           .error (.notPeriodic "x")
         else .ok ()) := by
      unfold check_hex_lattice
      rw [hw]
      simp [hflat]
    have hiff1 := @fmod_le_iff box.ly (r0 * 3) tol h3
    have hiff2 := @fmod_le_iff box.lx (r0 * sqrt3) tol hs
    have hsx : ¬ (("y" : String) = "x") := by decide
    simp only [if_neg hsx, hform]
    by_cases h1 : |fmod box.ly (r0 * 3)| ≤ tol <;>
      by_cases h2 : |fmod box.lx (r0 * sqrt3)| ≤ tol
    · rw [if_neg (by simpa using h1), if_neg (by simpa using h2)]
      refine ⟨⟨fun _ => ⟨hiff1.mp h1, hiff2.mp h2⟩, fun _ => rfl⟩, ?_, ?_⟩
      · intro hn1
        exact absurd (hiff1.mp h1) hn1
      · intro _ hn2
        exact absurd (hiff2.mp h2) hn2
    · rw [if_neg (by simpa using h1), if_pos (by simpa using h2)]
      refine ⟨⟨fun habs => absurd habs (by simp), ?_⟩, ?_, fun _ _ => rfl⟩
      · rintro ⟨_, he2⟩
        exact absurd (hiff2.mpr he2) h2
      · intro hn1
        exact absurd (hiff1.mp h1) hn1
    · rw [if_pos (by simpa using h1)]
      refine ⟨⟨fun habs => absurd habs (by simp), ?_⟩, fun _ => rfl, ?_⟩
      · rintro ⟨he1, _⟩
        exact absurd (hiff1.mpr he1) h1
      · intro he1 _
        exact absurd (hiff1.mpr he1) h1
    · rw [if_pos (by simpa using h1)]
      refine ⟨⟨fun habs => absurd habs (by simp), ?_⟩, fun _ => rfl, ?_⟩
      · rintro ⟨he1, _⟩
        exact absurd (hiff1.mpr he1) h1
      · intro he1 _
        exact absurd (hiff1.mpr he1) h1

/-- Witness for the amended C5: the accepted box `box4` with side
length 1 satisfies both divisibility conditions (each box length is an
exact integer multiple), and the theorem's characterization applies. -/
theorem box_periodicity_check_witness :
    ([(⟨0,0,0⟩ : Pos)].map (wrapPos box4) = [⟨0,0,0⟩]) ∧
    ((check_hex_lattice (7/4) [⟨0,0,0⟩] 1 box4 "x" (1/1000) = .ok () ↔
      ((∃ k : ℤ, k * (1 * 3) ≤ (if ("x":String) = "x" then box4.lx else box4.ly) ∧
          (if ("x":String) = "x" then box4.lx else box4.ly) - k * (1 * 3) ≤ 1/1000) ∧
        (∃ k : ℤ, k * (1 * (7/4)) ≤ (if ("x":String) = "x" then box4.ly else box4.lx) ∧
          (if ("x":String) = "x" then box4.ly else box4.lx) - k * (1 * (7/4)) ≤ 1/1000))) ∧
    ((¬ ∃ k : ℤ, k * (1 * 3) ≤ (if ("x":String) = "x" then box4.lx else box4.ly) ∧
          (if ("x":String) = "x" then box4.lx else box4.ly) - k * (1 * 3) ≤ 1/1000) →
      check_hex_lattice (7/4) [⟨0,0,0⟩] 1 box4 "x" (1/1000) =
        .error (.notPeriodic "x")) ∧
    ((∃ k : ℤ, k * (1 * 3) ≤ (if ("x":String) = "x" then box4.lx else box4.ly) ∧
          (if ("x":String) = "x" then box4.lx else box4.ly) - k * (1 * 3) ≤ 1/1000) →
      (¬ ∃ k : ℤ, k * (1 * (7/4)) ≤ (if ("x":String) = "x" then box4.ly else box4.lx) ∧
          (if ("x":String) = "x" then box4.ly else box4.lx) - k * (1 * (7/4)) ≤ 1/1000) →
      check_hex_lattice (7/4) [⟨0,0,0⟩] 1 box4 "x" (1/1000) =
        .error (.notPeriodic (if ("x":String) = "x" then "y" else "x")))) := by
  have hw : ([(⟨0,0,0⟩ : Pos)].map (wrapPos box4)) = [⟨0,0,0⟩] := by
    norm_num [List.map, wrapPos, fmod, box4]
  have hflat : (([(⟨0,0,0⟩ : Pos)].all (fun v => |v.z - (0:ℚ)| ≤ 1/1000))) = true := by
    norm_num [List.all]
  exact ⟨hw, box_periodicity_check (7/4) [⟨0,0,0⟩] 1 box4 "x" (1/1000) ⟨0,0,0⟩ []
    (by norm_num) (by norm_num) hw hflat (Or.inl rfl)⟩

/-- Counterexample to C5 as stated: for the box `(5999/2000, 7/4, 10)`
with side length 1 both box lengths are within tolerance 1/1000 of an
integer multiple of the required spacing (5999/2000 is 1/2000 below
1 * 3, and 7/4 is exactly 1 * (7/4)), yet the validation rejects the
box, naming the x direction. -/
theorem box_periodicity_check_cex :
    |(5999/2000 : ℚ) - (1:ℤ) * (1 * 3)| ≤ 1/1000 ∧
    |(7/4 : ℚ) - (1:ℤ) * (1 * (7/4))| ≤ 1/1000 ∧
    check_hex_lattice (7/4) [⟨0,0,0⟩] 1 ⟨5999/2000, 7/4, 10⟩ "x" (1/1000) =
      .error (.notPeriodic "x") := by
  refine ⟨by rw [abs_le]; constructor <;> norm_num,
    by rw [abs_le]; constructor <;> norm_num, ?_⟩
  norm_num [check_hex_lattice, wrapPos, fmod, List.map, List.all]
  intro h
  rw [abs_of_nonneg (by norm_num)] at h
  norm_num at h

/-- C8 (amended): when the wrapped vertices all share exactly one z
coordinate, all candidate positions obtained by shifting the resolved
face centers along the surface normal share exactly the same z
coordinate (in particular the z coordinate of the first candidate).
(The claim as stated is false: the flatness check only requires the z
coordinates to agree within the tolerance, and rounding can then
produce faces with distinct z; see the counterexample.) -/
theorem shifted_candidates_common_z (sqrt3 : ℚ) (verts : List Pos) (r0 : ℚ)
    (box : Box) (flatside : String) (tol : ℚ) (faces : List Pos)
    (zshift z0 : ℚ)
    (hz : ∀ v ∈ verts.map (wrapPos box), v.z = z0)
    (h : hex_verts2faces sqrt3 verts r0 box flatside tol = .ok faces) :
    ∀ a ∈ shiftZ zshift faces, ∀ b ∈ shiftZ zshift faces, a.z = b.z := by
  suffices key : ∀ f ∈ faces, f.z = roundTo (precision tol) (fmod z0 box.lz) by
    intro a ha b hb
    simp only [shiftZ, List.mem_map] at ha hb
    obtain ⟨fa, hfa, rfl⟩ := ha
    obtain ⟨fb, hfb, rfl⟩ := hb
    simp only []
    rw [key fa hfa, key fb hfb]
  unfold hex_verts2faces at h
  repeat'
    first
    | exact Except.noConfusion h
    | split at h
    | simp only at h
  all_goals
    injection h with h
  all_goals
    subst h
  all_goals
    intro f hf
  all_goals
    rw [(List.perm_insertionSort lexLe _).mem_iff, List.mem_filter] at hf
  all_goals
    obtain ⟨hf, _⟩ := hf
  all_goals
    simp only [List.mem_map, Function.comp] at hf
  · obtain ⟨a, ⟨a1, ⟨v0, hv0, rfl⟩, rfl⟩, rfl⟩ := hf
    obtain ⟨w0, hw0, rfl⟩ := hv0
    have hz0 : (wrapPos box w0).z = z0 := hz _ (List.mem_map_of_mem _ hw0)
    simp only [wrapPos] at hz0
    simp only [roundPos, wrapPos]
    rw [hz0]
  · obtain ⟨a, ⟨a1, ⟨v0, hv0, rfl⟩, rfl⟩, rfl⟩ := hf
    obtain ⟨w0, hw0, rfl⟩ := hv0
    have hz0 : (wrapPos box w0).z = z0 := hz _ (List.mem_map_of_mem _ hw0)
    simp only [wrapPos] at hz0
    simp only [roundPos, wrapPos]
    rw [hz0]

/-- Witness for the amended C8: the exactly flat lattice `vertsA`
resolves to `facesA`, and after shifting by 3/2 along the normal all
candidates share one z coordinate. -/
theorem shifted_candidates_common_z_witness :
    (∀ v ∈ vertsA.map (wrapPos box4), v.z = 0) ∧
    (∀ a ∈ shiftZ (3/2) facesA, ∀ b ∈ shiftZ (3/2) facesA, a.z = b.z) := by
  have hz : ∀ v ∈ vertsA.map (wrapPos box4), v.z = 0 := by
    norm_num [vertsA, box4, List.map, wrapPos, fmod]
  exact ⟨hz, shifted_candidates_common_z (7/4) vertsA 1 box4 "x" (1/1000)
    facesA (3/2) 0 hz hex_run_A⟩

/-- Counterexample to C8 as stated: `vertsB` passes the flatness check
(its two z values 0 and 3/5000 differ by less than the tolerance), but
rounding gives the two resolved faces distinct z coordinates, so the
candidates obtained by shifting them along the normal do not share one
z coordinate. -/
theorem shifted_candidates_common_z_cex :
    hex_verts2faces (7/4) vertsB 1 box4 "x" (1/1000) = .ok facesB ∧
    ((shiftZ (3/2) facesB).getD 0 default).z ≠
      ((shiftZ (3/2) facesB).getD 1 default).z := by
  refine ⟨hex_run_B, ?_⟩
  norm_num [shiftZ, facesB, List.map]
